import Mathlib

/-!
Verification development for the pytato code-generation core
(`pytato/codegen.py`): a shallow embedding of the graph-lowering walker,
the scalar-expression rewriter, the kernel-program accumulator and the
entry point, together with theorems about the claimed properties.

Machine integers do not occur in the modelled fragment (shapes are plain
non-negative extents); Python exceptions (KeyError, AssertionError) are
modelled as `Except` errors that carry the mutable state as it stood when
the exception was raised, matching Python's in-place state mutation.
-/

namespace Pytato

/-- Scalar expressions as used by the code generator (`pymbolic` expression
trees restricted to the shapes the rewriter handles: constants, variable
references, subscripts with an index tuple, sums and products). -/
inductive ScalarExpression where
  | const (n : Int)
  | var (name : String)
  | subscript (agg : ScalarExpression) (indices : List ScalarExpression)
  | add (x y : ScalarExpression)
  | mul (x y : ScalarExpression)

/-- Numpy dtypes, opaque to the code generator. -/
inductive DType where
  | int64
  | float64
deriving DecidableEq

/-- Shapes (`ShapeType`): a tuple of concrete extents. -/
abbrev ShapeType := List Nat

/-- A dynamically-typed Python attribute slot that may hold either a shape
or a dtype.  `ArrayResult.__init__(self, name, shape, dtype)` is called
positionally in the source, so the embedding must keep the slots untyped
to record what was actually passed. -/
inductive PyVal where
  | shape (s : ShapeType)
  | dtype (d : DType)
deriving DecidableEq

/-- Python `len()` of the value in a slot; only ever applied to slots that hold an
actual shape in the code paths the generator exercises. -/
def PyVal.pyLen : PyVal → Nat
  | .shape s => s.length
  | .dtype _ => 0

/-- Array expression nodes (`pytato.array`).  Nodes are identity-keyed in
the source (`state.results` is a dict keyed on the node object); identity
is modelled by an injected `ident` field, as the repository design notes
sanction.  `Output.shape`/`Output.dtype` delegate to the wrapped node. -/
inductive Array where
  | placeholder (ident : Nat) (name : String) (shape : ShapeType) (dtype : DType)
  | output (ident : Nat) (name : String) (inner : Array)
  | indexLambda (ident : Nat) (expr : ScalarExpression) (shape : ShapeType)
      (dtype : DType) (bindings : List (String × Array))

def Array.ident : Array → Nat
  | .placeholder i _ _ _ => i
  | .output i _ _ => i
  | .indexLambda i _ _ _ _ => i

def Array.shape : Array → ShapeType
  | .placeholder _ _ sh _ => sh
  | .output _ _ inner => inner.shape
  | .indexLambda _ _ sh _ _ => sh

def Array.dtype : Array → DType
  | .placeholder _ _ _ dt => dt
  | .output _ _ inner => inner.dtype
  | .indexLambda _ _ _ dt _ => dt

/-- Association-list lookup, first match wins (Python dict lookup, with
inserts modelled as conses so that the latest insert is found first). -/
def alookup {κ α : Type} [DecidableEq κ] : List (κ × α) → κ → Option α
  | [], _ => none
  | (k, v) :: rest, s => if k = s then some v else alookup rest s

mutual

/-- Structural substitution of variables (`pytato.scalar_expr.substitute`).
Modelled from the spec: `scalar_expr.substitute` is not under `src/`; the
spec describes it as replacing placeholder names by the supplied
expressions via structural substitution, not re-evaluation. -/
def substitute : ScalarExpression → List (String × ScalarExpression) → ScalarExpression
  | .const n, _ => .const n
  | .var s, m => (alookup m s).getD (.var s)
  | .subscript a idx, m => .subscript (substitute a m) (substituteList idx m)
  | .add x y, m => .add (substitute x m) (substitute y m)
  | .mul x y, m => .mul (substitute x m) (substitute y m)
termination_by e _ => sizeOf e

def substituteList : List ScalarExpression → List (String × ScalarExpression) → List ScalarExpression
  | [], _ => []
  | e :: es, m => substitute e m :: substituteList es m
termination_by es _ => sizeOf es

end

/-- The reserved per-dimension placeholder name for dimension `d`
(the f-string `f"_{d}"`). -/
def dimName (d : Nat) : String := "_" ++ Nat.repr d

/-- The reserved placeholder names of an `n`-dimensional expression, in
dimension order. -/
def dimNames (n : Nat) : List String := (List.range n).map dimName

/-- Contextual data for generating loopy expressions
(`LoopyExpressionContext`): the accumulated dependency set and the
reduction-bound map.  The back-reference to the state is modelled by
threading the state explicitly. -/
structure LoopyExpressionContext where
  depends_on : List String
  reduction_bounds : List (String × (ScalarExpression × ScalarExpression))

/-- The method `CodeGenState.make_expression_context()` with its default arguments:
empty dependency set, empty reduction-bound map. -/
def makeExpressionContext : LoopyExpressionContext :=
  { depends_on := [], reduction_bounds := [] }

/-- Generated code for one graph node (`GeneratedResult` variants).  The
`shape`/`dtype` slots are untyped (`PyVal`) because the source fills them
positionally. -/
inductive GeneratedResult where
  | arrayResult (name : String) (shape : PyVal) (dtype : PyVal)
  | loopyExpressionResult (expr : ScalarExpression) (shape : PyVal) (dtype : PyVal)

/-- The property `GeneratedResult.ndim`, that is `len(self.shape)`. -/
def GeneratedResult.ndim : GeneratedResult → Nat
  | .arrayResult _ sh _ => sh.pyLen
  | .loopyExpressionResult _ sh _ => sh.pyLen

/-- The method `to_loopy_expression(indices, context)` for both result variants:
an `ArrayResult` renders as a bare variable at the empty tuple and as a
subscript otherwise; a `LoopyExpressionResult` renders by substituting the
reserved placeholder names by the indices.  Neither variant touches the
context (the source's dependency handling is an unimplemented TODO), so
the context is returned as received. -/
def GeneratedResult.toLoopyExpression :
    GeneratedResult → List ScalarExpression → LoopyExpressionContext →
      ScalarExpression × LoopyExpressionContext
  | .arrayResult nm _ _, indices, ctx =>
    (match indices with
      | [] => .var nm
      | _ => .subscript (.var nm) indices, ctx)
  | .loopyExpressionResult e sh _, indices, ctx =>
    (substitute e ((dimNames sh.pyLen).zip indices), ctx)

/-- A kernel buffer argument (`loopy.GlobalArg`, restricted to the fields
the generator sets: name, shape, dtype, output-only role). -/
structure GlobalArg where
  name : String
  shape : ShapeType
  dtype : DType
  is_output_only : Bool
deriving DecidableEq

/-- An iteration domain.  Modelled from the spec:
`scalar_expr.domain_for_shape` is not under `src/`; the spec describes a
domain as named loop variables with integer extents derived from a
shape. -/
structure Domain where
  inames : List String
  shape : ShapeType
deriving DecidableEq

/-- An assignment instruction (`loopy` `make_assignment`): id, target
subscript, right-hand side, the loop variables it runs under, and its
instruction-id dependency set (frozensets modelled as the lists of their
elements). -/
structure Instruction where
  id : String
  assignee : ScalarExpression
  rhs : ScalarExpression
  within_inames : List String
  depends_on : List String

/-- The kernel program accumulator (`loopy.LoopKernel`, restricted to the
three lists the generator appends to). -/
structure LoopKernel where
  args : List GlobalArg
  domains : List Domain
  instructions : List Instruction

def emptyKernel : LoopKernel := { args := [], domains := [], instructions := [] }

/-- All variable names a kernel knows (used to seed its name
generators). -/
def kernelVarNames (k : LoopKernel) : List String :=
  k.args.map GlobalArg.name ++ k.domains.flatMap Domain.inames
    ++ k.instructions.map Instruction.id

/-- Suffix used by the collision-checked name generator.  Modelled from the
spec: `pytools.UniqueNameGenerator` is an external collaborator; the spec
only requires generated names to be unique for the pass, satisfied by a
collision-checked generator. -/
def natTag (k : Nat) : String := String.mk (List.replicate k '0')

def candidateName (base : String) (k : Nat) : String := base ++ "_" ++ natTag k

/-- First candidate name not in `existing` (total by pigeonhole: there are
`existing.length + 1` pairwise distinct candidates). -/
def findFresh (existing : List String) (base : String) : String :=
  match (List.range (existing.length + 1)).find?
      (fun k => decide (candidateName base k ∉ existing)) with
  | some k => candidateName base k
  | none => candidateName base (existing.length + 1)

/-- One call of the unique name generator: return `base` itself if unused,
otherwise a fresh suffixed candidate; record the returned name. -/
def ungNext (existing : List String) (base : String) : String × List String :=
  let nm := if base ∈ existing then findFresh existing base else base
  (nm, nm :: existing)

/-- Sequential generator calls for a list of base names, returning the
generated names and the final recorded set. -/
def genNameList : List String → List String → List String × List String
  | existing, [] => ([], existing)
  | existing, b :: bs =>
    let g := ungNext existing b
    let rest := genNameList g.2 bs
    (g.1 :: rest.1, rest.2)

/-- The data threaded through the pass (`CodeGenState`): the namespace
chain (`ChainMap`, innermost scope first), the partial kernel, the
identity-keyed result cache, and the two unique name generators created in
`__post_init__` from the kernel's variable names. -/
structure CodeGenState where
  namespaceMaps : List (List (String × Array))
  kernel : LoopKernel
  results : List (Nat × GeneratedResult)
  var_name_gen : List String
  insn_id_gen : List String

/-- Chained namespace (`ChainMap`) lookup: scopes searched in order, first hit wins; `none`
models the `KeyError` of a failed lookup. -/
def chainLookup : List (List (String × Array)) → String → Option Array
  | [], _ => none
  | m :: rest, s =>
    match alookup m s with
    | some a => some a
    | none => chainLookup rest s

/-- Fatal failures of the pass.  `outOfFuel` is an artifact of the
embedding's explicit recursion bound and corresponds to no source
behaviour. -/
inductive CodeGenError where
  | outOfFuel
  | scalarOutput
  | nameNotFound (name : String)
  | aggregateNotVariable
  | contextNotEmpty
deriving DecidableEq

/-- The method `CodeGenMapper.map_placeholder`: on a cache hit return the cached
result; otherwise append one input buffer argument (keyword arguments in
the source, hence correctly slotted) and cache an `ArrayResult` built with
the positional call `ArrayResult(expr.name, expr.dtype, expr.shape)` —
exactly as the source spells it. -/
def map_placeholder (idn : Nat) (nm : String) (sh : ShapeType) (dt : DType)
    (st : CodeGenState) : CodeGenState × Except CodeGenError GeneratedResult :=
  match alookup st.results idn with
  | some r => (st, .ok r)
  | none =>
    let arg : GlobalArg := { name := nm, shape := sh, dtype := dt, is_output_only := false }
    let st1 := { st with kernel := { st.kernel with args := st.kernel.args ++ [arg] } }
    let r : GeneratedResult := .arrayResult nm (.dtype dt) (.shape sh)
    ({ st1 with results := (idn, r) :: st1.results }, .ok r)

/-- The iname base names `f"{expr.name}_dim{d}"` for `d` below `n`. -/
def output_dim_bases (nm : String) (n : Nat) : List String :=
  (List.range n).map (fun d => nm ++ "_dim" ++ Nat.repr d)

/-- The part of `CodeGenMapper.map_output` that runs after the inner node
has been lowered to `inner_result` leaving state `st1`: generate one fresh
iname per dimension, build the domain, the output-only argument and the
single assignment instruction, and cache an `ArrayResult` — again built
with the source's positional call `ArrayResult(expr.name, expr.dtype,
expr.shape)`. -/
def map_output_post (idn : Nat) (nm : String) (sh : ShapeType) (dt : DType)
    (st1 : CodeGenState) (inner_result : GeneratedResult) :
    CodeGenState × Except CodeGenError GeneratedResult :=
  let gen := genNameList st1.var_name_gen (output_dim_bases nm sh.length)
  let inames := gen.1
  let st2 := { st1 with var_name_gen := gen.2 }
  let domain : Domain := { inames := inames, shape := sh }
  let arg : GlobalArg := { name := nm, shape := sh, dtype := dt, is_output_only := true }
  let indices := inames.map ScalarExpression.var
  let ce := inner_result.toLoopyExpression indices makeExpressionContext
  if ce.2.reduction_bounds.isEmpty && ce.2.depends_on.isEmpty then
    let idg := ungNext st2.insn_id_gen (nm ++ "_copy")
    let st3 := { st2 with insn_id_gen := idg.2 }
    let insn : Instruction :=
      { id := idg.1, assignee := .subscript (.var nm) indices, rhs := ce.1,
        within_inames := inames, depends_on := ce.2.depends_on }
    let k4 := { st3.kernel with
      args := st3.kernel.args ++ [arg],
      instructions := st3.kernel.instructions ++ [insn],
      domains := st3.kernel.domains ++ [domain] }
    let st4 := { st3 with kernel := k4 }
    let result : GeneratedResult := .arrayResult nm (.dtype dt) (.shape sh)
    ({ st4 with results := (idn, result) :: st4.results }, .ok result)
  else (st2, .error .contextNotEmpty)

/-- One unfolding of `CodeGenMapper`'s dispatch, parameterised over the
functions used for recursive node lowering (`cg`) and body rewriting
(`eg`).  Each variant first consults the result cache.  `map_output`
asserts `expr.shape != ()` before doing anything else; `map_index_lambda`
pushes the local bindings as the innermost scope, rewrites the body, and
pops the scope only on the success path — `chain_namespaces` has no
`try/finally`, so an exception propagates with the scope still pushed. -/
def codegenFn
    (cg : Array → CodeGenState → CodeGenState × Except CodeGenError GeneratedResult)
    (eg : ScalarExpression → LoopyExpressionContext → CodeGenState →
      CodeGenState × LoopyExpressionContext × Except CodeGenError ScalarExpression)
    (e : Array) (st : CodeGenState) : CodeGenState × Except CodeGenError GeneratedResult :=
  match e with
  | .placeholder idn nm sh dt => map_placeholder idn nm sh dt st
  | .output idn nm inner =>
    match alookup st.results idn with
    | some r => (st, .ok r)
    | none =>
      if inner.shape = [] then (st, .error .scalarOutput)
      else
        match cg inner st with
        | (st1, .error err) => (st1, .error err)
        | (st1, .ok r1) => map_output_post idn nm inner.shape inner.dtype st1 r1
  | .indexLambda idn body sh dt bindings =>
    match alookup st.results idn with
    | some r => (st, .ok r)
    | none =>
      let st1 := { st with namespaceMaps := bindings :: st.namespaceMaps }
      match eg body makeExpressionContext st1 with
      | (st2, _, .error err) => (st2, .error err)
      | (st2, _, .ok le) =>
        let st3 := { st2 with namespaceMaps := st2.namespaceMaps.tail }
        let r : GeneratedResult := .loopyExpressionResult le (.shape sh) (.dtype dt)
        ({ st3 with results := (idn, r) :: st3.results }, .ok r)

/-- One unfolding of `LoopyExpressionGenMapper`'s dispatch: a bare variable
resolves through the namespace chain and renders the lowered node's result
at the empty tuple; a subscript (whose aggregate must be a variable)
resolves the same way and renders at its index tuple, without rewriting
the indices; sums and products are rebuilt structurally; constants are
returned unchanged. -/
def exprgenFn
    (cg : Array → CodeGenState → CodeGenState × Except CodeGenError GeneratedResult)
    (eg : ScalarExpression → LoopyExpressionContext → CodeGenState →
      CodeGenState × LoopyExpressionContext × Except CodeGenError ScalarExpression)
    (e : ScalarExpression) (ctx : LoopyExpressionContext) (st : CodeGenState) :
    CodeGenState × LoopyExpressionContext × Except CodeGenError ScalarExpression :=
  match e with
  | .const n => (st, ctx, .ok (.const n))
  | .var nm =>
    match chainLookup st.namespaceMaps nm with
    | none => (st, ctx, .error (.nameNotFound nm))
    | some node =>
      match cg node st with
      | (st1, .error err) => (st1, ctx, .error err)
      | (st1, .ok r) =>
        let p := r.toLoopyExpression [] ctx
        (st1, p.2, .ok p.1)
  | .subscript (.var nm) idx =>
    match chainLookup st.namespaceMaps nm with
    | none => (st, ctx, .error (.nameNotFound nm))
    | some node =>
      match cg node st with
      | (st1, .error err) => (st1, ctx, .error err)
      | (st1, .ok r) =>
        let p := r.toLoopyExpression idx ctx
        (st1, p.2, .ok p.1)
  | .subscript _ _ => (st, ctx, .error .aggregateNotVariable)
  | .add x y =>
    match eg x ctx st with
    | (st1, ctx1, .error err) => (st1, ctx1, .error err)
    | (st1, ctx1, .ok x1) =>
      match eg y ctx1 st1 with
      | (st2, ctx2, .error err) => (st2, ctx2, .error err)
      | (st2, ctx2, .ok y1) => (st2, ctx2, .ok (.add x1 y1))
  | .mul x y =>
    match eg x ctx st with
    | (st1, ctx1, .error err) => (st1, ctx1, .error err)
    | (st1, ctx1, .ok x1) =>
      match eg y ctx1 st1 with
      | (st2, ctx2, .error err) => (st2, ctx2, .error err)
      | (st2, ctx2, .ok y1) => (st2, ctx2, .ok (.mul x1 y1))

/-- The mutually recursive walker/rewriter pair, bounded by explicit fuel
(the source recursion is bounded by the DAG depth; one unit of fuel is
consumed per recursive call). -/
def codegenPair : Nat →
    ((Array → CodeGenState → CodeGenState × Except CodeGenError GeneratedResult) ×
      (ScalarExpression → LoopyExpressionContext → CodeGenState →
        CodeGenState × LoopyExpressionContext × Except CodeGenError ScalarExpression))
  | 0 =>
    (fun _ st => (st, .error .outOfFuel), fun _ ctx st => (st, ctx, .error .outOfFuel))
  | fuel + 1 =>
    let p := codegenPair fuel
    (codegenFn p.1 p.2, exprgenFn p.1 p.2)

/-- The walker entry `CodeGenMapper.rec` on a graph node. -/
def codegenRec (fuel : Nat) (e : Array) (st : CodeGenState) :
    CodeGenState × Except CodeGenError GeneratedResult :=
  (codegenPair fuel).1 e st

/-- The rewriter entry `LoopyExpressionGenMapper.rec` on a scalar expression. -/
def exprgenRec (fuel : Nat) (e : ScalarExpression) (ctx : LoopyExpressionContext)
    (st : CodeGenState) :
    CodeGenState × LoopyExpressionContext × Except CodeGenError ScalarExpression :=
  (codegenPair fuel).2 e ctx st

theorem codegenRec_succ (fuel : Nat) (e : Array) (st : CodeGenState) :
    codegenRec (fuel + 1) e st = codegenFn (codegenRec fuel) (exprgenRec fuel) e st := rfl

theorem exprgenRec_succ (fuel : Nat) (e : ScalarExpression)
    (ctx : LoopyExpressionContext) (st : CodeGenState) :
    exprgenRec (fuel + 1) e ctx st
      = exprgenFn (codegenRec fuel) (exprgenRec fuel) e ctx st := rfl

/-- A namespace: insertion-ordered, globally unique name→node bindings. -/
abbrev Namespace := List (String × Array)

/-- The promotion loop of `_promote_named_arrays_to_outputs`: for each
named array, draw a name from the generator (seeded with the copied
namespace's names) and register an `Output` node wrapping the array.
Modelled from the spec: `Namespace`, `Output` registration,
`CopyMapper`/`copy_namespace` (a sharing-preserving copy, the identity on
this structural embedding) and `pytools.UniqueNameGenerator` are not under
`src/`; fresh node identities are supplied through `freshIdent`. -/
def promoteLoop : Namespace → List String → List (String × Array) → Nat → Namespace
  | result, _, [], _ => result
  | result, existing, (nm, val) :: rest, freshIdent =>
    let g := ungNext existing nm
    promoteLoop (result ++ [(g.1, .output freshIdent g.1 val)]) g.2 rest (freshIdent + 1)

/-- The function `_promote_named_arrays_to_outputs`. -/
def promote_named_arrays_to_outputs (ns : Namespace) (arrays : List (String × Array))
    (freshIdent : Nat) : Namespace :=
  promoteLoop ns (ns.map Prod.fst) arrays freshIdent

/-- The initial `CodeGenState` built in `generate_loopy`: a one-scope
chain over the namespace, the empty kernel, an empty cache, and name
generators seeded from the kernel's variable names. -/
def mkCodeGenState (ns : Namespace) : CodeGenState :=
  { namespaceMaps := [ns], kernel := emptyKernel, results := [],
    var_name_gen := kernelVarNames emptyKernel,
    insn_id_gen := kernelVarNames emptyKernel }

/-- The loop `for name, val in namespace.items(): mapper(val, state)`;
an exception aborts the pass with the state as mutated so far. -/
def lowerNamespaceItems (fuel : Nat) :
    Namespace → CodeGenState → CodeGenState × Except CodeGenError Unit
  | [], st => (st, .ok ())
  | (_, v) :: rest, st =>
    match codegenRec fuel v st with
    | (st1, .ok _) => lowerNamespaceItems fuel rest st1
    | (st1, .error err) => (st1, .error err)

/-- Entry point `generate_loopy` on a bare `Namespace` argument. -/
def generate_loopy_from_namespace (fuel : Nat) (ns : Namespace) :
    CodeGenState × Except CodeGenError Unit :=
  lowerNamespaceItems fuel ns (mkCodeGenState ns)

/-- Entry point `generate_loopy` on a `DictOfNamedArrays` argument: promote the named
arrays to `Output` nodes, then lower every named node in insertion
order. -/
def generate_loopy_dict (fuel : Nat) (ns : Namespace)
    (arrays : List (String × Array)) (freshIdent : Nat) :
    CodeGenState × Except CodeGenError Unit :=
  generate_loopy_from_namespace fuel (promote_named_arrays_to_outputs ns arrays freshIdent)

/-- Entry point `generate_loopy` on a single `Array` argument: the node is wrapped as
the one-entry mapping `{"out": node}` and handled as a
`DictOfNamedArrays`.  `ns` is the namespace the node lives in. -/
def generate_loopy_array (fuel : Nat) (ns : Namespace) (node : Array)
    (freshIdent : Nat) : CodeGenState × Except CodeGenError Unit :=
  generate_loopy_dict fuel ns [("out", node)] freshIdent

/-- Concrete local-bindings scope used by the C8 witness. -/
def c8Bindings : List (String × Array) := [("a", .placeholder 0 "a" [5] .int64)]

/-- Initial state of the C8 witness run. -/
def c8St0 : CodeGenState := mkCodeGenState []

/-- State of the C8 witness run after pushing the local scope (the body
`const 5` rewrites without touching the state). -/
def c8St2 : CodeGenState :=
  { c8St0 with namespaceMaps := c8Bindings :: c8St0.namespaceMaps }

/-- Result cached by the C8 witness run. -/
def c8Res : GeneratedResult := .loopyExpressionResult (.const 5) (.shape [5]) (.dtype .int64)

/-- Final state of the C8 witness run. -/
def c8StFinal : CodeGenState :=
  { c8St2 with namespaceMaps := c8St2.namespaceMaps.tail, results := [(1, c8Res)] }

theorem string_data_append (s t : String) : (s ++ t).data = s.data ++ t.data := by
  cases s
  cases t
  rfl

theorem candidateName_data_length (base : String) (k : Nat) :
    (candidateName base k).data.length = base.data.length + 1 + k := by
  simp [candidateName, natTag, string_data_append]
  omega

theorem candidateName_injective (base : String) {k₁ k₂ : Nat}
    (h : candidateName base k₁ = candidateName base k₂) : k₁ = k₂ := by
  have h₁ := candidateName_data_length base k₁
  have h₂ := candidateName_data_length base k₂
  rw [h] at h₁
  omega

theorem findFresh_not_mem (existing : List String) (base : String) :
    findFresh existing base ∉ existing := by
  unfold findFresh
  rcases hf : (List.range (existing.length + 1)).find?
      (fun k => decide (candidateName base k ∉ existing)) with _ | k
  · exfalso
    have hall : ∀ k ∈ List.range (existing.length + 1),
        candidateName base k ∈ existing := by
      intro k hk
      have := List.find?_eq_none.mp hf k hk
      simpa using this
    have hnodup : ((List.range (existing.length + 1)).map
        (candidateName base)).Nodup := by
      refine List.Nodup.map ?_ (List.nodup_range _)
      intro a b hab
      exact candidateName_injective base hab
    have hsub : ((List.range (existing.length + 1)).map
        (candidateName base)) ⊆ existing := by
      intro x hx
      rcases List.mem_map.mp hx with ⟨k, hk, rfl⟩
      exact hall k hk
    have hlen := (List.subperm_of_subset hnodup hsub).length_le
    simp at hlen
  · simp only
    have := List.find?_some hf
    simpa using this

theorem ungNext_not_mem (existing : List String) (base : String) :
    (ungNext existing base).1 ∉ existing := by
  unfold ungNext
  by_cases h : base ∈ existing
  · simpa [h] using findFresh_not_mem existing base
  · simp [h]

theorem ungNext_snd (existing : List String) (base : String) :
    (ungNext existing base).2 = (ungNext existing base).1 :: existing := rfl

theorem genNameList_length (existing bases : List String) :
    (genNameList existing bases).1.length = bases.length := by
  induction bases generalizing existing with
  | nil => rfl
  | cons b bs ih => simp [genNameList, ih]

theorem genNameList_fresh (existing bases : List String) :
    ∀ nm ∈ (genNameList existing bases).1, nm ∉ existing := by
  induction bases generalizing existing with
  | nil => simp [genNameList]
  | cons b bs ih =>
    intro nm hnm
    simp only [genNameList, List.mem_cons] at hnm
    rcases hnm with rfl | hnm
    · exact ungNext_not_mem existing b
    · have := ih (ungNext existing b).2 nm hnm
      rw [ungNext_snd] at this
      intro hmem
      exact this (List.mem_cons_of_mem _ hmem)

theorem genNameList_nodup (existing bases : List String) :
    (genNameList existing bases).1.Nodup := by
  induction bases generalizing existing with
  | nil => simp [genNameList]
  | cons b bs ih =>
    simp only [genNameList, List.nodup_cons]
    refine ⟨?_, ih (ungNext existing b).2⟩
    intro hmem
    have := genNameList_fresh (ungNext existing b).2 bs _ hmem
    rw [ungNext_snd] at this
    exact this (List.mem_cons_self _ _)

theorem toLoopyExpression_ctx (r : GeneratedResult) (idx : List ScalarExpression)
    (ctx : LoopyExpressionContext) : (r.toLoopyExpression idx ctx).2 = ctx := by
  cases r <;> rfl

/-- Claim C7: rendering an `ArrayResult` at the empty index tuple yields a
bare scalar variable reference to its buffer name, and rendering it at any
non-empty index tuple yields a subscript of that buffer variable by
exactly the given indices. -/
theorem arrayResult_rendering (nm : String) (shp dtp : PyVal)
    (idx : List ScalarExpression) (ctx : LoopyExpressionContext) :
    (GeneratedResult.arrayResult nm shp dtp).toLoopyExpression [] ctx = (.var nm, ctx)
    ∧ (idx ≠ [] →
      (GeneratedResult.arrayResult nm shp dtp).toLoopyExpression idx ctx
        = (.subscript (.var nm) idx, ctx)) := by
  refine ⟨rfl, ?_⟩
  intro h
  cases idx with
  | nil => exact absurd rfl h
  | cons a l => rfl

theorem arrayResult_rendering_witness :
    (GeneratedResult.arrayResult "a" (.shape [5]) (.dtype .int64)).toLoopyExpression
        [] makeExpressionContext = (.var "a", makeExpressionContext)
    ∧ (GeneratedResult.arrayResult "a" (.shape [5]) (.dtype .int64)).toLoopyExpression
        [.var "i"] makeExpressionContext
        = (.subscript (.var "a") [.var "i"], makeExpressionContext) :=
  ⟨(arrayResult_rendering "a" (.shape [5]) (.dtype .int64) [.var "i"]
      makeExpressionContext).1,
    (arrayResult_rendering "a" (.shape [5]) (.dtype .int64) [.var "i"]
      makeExpressionContext).2 (by simp)⟩

/-- Claim C3: invoking the walker on a node already present in the result
cache returns the identical cached result and leaves the entire state —
kernel program, cache, name generators and namespace chain — unchanged. -/
theorem cached_node_is_nop (fuel : Nat) (e : Array) (st : CodeGenState)
    (r : GeneratedResult) (hfuel : 0 < fuel)
    (hcache : alookup st.results e.ident = some r) :
    codegenRec fuel e st = (st, .ok r) := by
  obtain ⟨f, rfl⟩ : ∃ f, fuel = f + 1 := ⟨fuel - 1, by omega⟩
  cases e with
  | placeholder idn nm sh dt =>
    simp only [Array.ident] at hcache
    simp [codegenRec_succ, codegenFn, map_placeholder, hcache]
  | output idn nm inner =>
    simp only [Array.ident] at hcache
    simp [codegenRec_succ, codegenFn, hcache]
  | indexLambda idn body sh dt bindings =>
    simp only [Array.ident] at hcache
    simp [codegenRec_succ, codegenFn, hcache]

theorem cached_node_is_nop_witness :
    codegenRec 1 (.placeholder 0 "x" [4] .int64)
        { mkCodeGenState [] with
          results := [(0, .arrayResult "x" (.dtype .int64) (.shape [4]))] }
      = ({ mkCodeGenState [] with
          results := [(0, .arrayResult "x" (.dtype .int64) (.shape [4]))] },
        .ok (.arrayResult "x" (.dtype .int64) (.shape [4]))) :=
  cached_node_is_nop 1 (.placeholder 0 "x" [4] .int64)
    { mkCodeGenState [] with
      results := [(0, .arrayResult "x" (.dtype .int64) (.shape [4]))] }
    (.arrayResult "x" (.dtype .int64) (.shape [4])) (by decide) rfl

/-- Claim C6: lowering an Output whose shape is the empty tuple fails fast
with the scalar-output assertion and returns the state unchanged: no
buffer argument, domain or instruction has been added. -/
theorem scalar_output_fails_fast (fuel idn : Nat) (nm : String) (inner : Array)
    (st : CodeGenState) (hcache : alookup st.results idn = none)
    (hsh : inner.shape = []) :
    codegenRec (fuel + 1) (.output idn nm inner) st = (st, .error .scalarOutput) := by
  simp [codegenRec_succ, codegenFn, hcache, hsh]

theorem scalar_output_fails_fast_witness :
    codegenRec 1 (.output 1 "o" (.placeholder 0 "x" [] .int64)) (mkCodeGenState [])
      = (mkCodeGenState [], .error .scalarOutput) :=
  scalar_output_fails_fast 0 1 "o" (.placeholder 0 "x" [] .int64)
    (mkCodeGenState []) rfl rfl

/-- Claim C1 (evaluation at the failing input): on first visit of a
Placeholder the walker adds exactly one input buffer argument named after
the placeholder carrying the node's shape and dtype and emits no
instructions — but the cached `ArrayResult` is built with the positional
call `ArrayResult(expr.name, expr.dtype, expr.shape)` against the
signature `(name, shape, dtype)`, so its shape slot holds the node's
dtype and its dtype slot holds the node's shape; likewise for the
`ArrayResult` cached for an Output. -/
theorem placeholder_arrayResult_swapped :
    codegenRec 1 (.placeholder 0 "x" [10] .float64)
        (mkCodeGenState [("x", .placeholder 0 "x" [10] .float64)])
      = ({ mkCodeGenState [("x", .placeholder 0 "x" [10] .float64)] with
            kernel := { args := [{ name := "x", shape := [10], dtype := .float64,
                                   is_output_only := false }],
                        domains := [], instructions := [] },
            results := [(0, .arrayResult "x" (.dtype .float64) (.shape [10]))] },
        .ok (.arrayResult "x" (.dtype .float64) (.shape [10])))
    ∧ (GeneratedResult.arrayResult "x" (.dtype .float64) (.shape [10])
        ≠ .arrayResult "x" (.shape [10]) (.dtype .float64))
    ∧ (codegenRec 2 (.output 1 "o" (.placeholder 0 "x" [10] .float64))
        (mkCodeGenState [])).1.results.head?
        = some (1, .arrayResult "o" (.dtype .float64) (.shape [10])) := by
  refine ⟨rfl, by simp, rfl⟩

/-- Claim C2 (evaluation at the failing input): when the body rewrite of
an IndexLambda raises (here: the unresolved name "missing"), the
temporary local-bindings scope is NOT popped — `chain_namespaces` has no
try/finally — so after the aborted lowering the namespace chain still
carries the pushed scope and differs from the chain before the visit. -/
theorem index_lambda_scope_leak :
    codegenRec 2 (.indexLambda 1 (.var "missing") [5] .int64
        [("a", .placeholder 0 "a" [5] .int64)]) (mkCodeGenState [])
      = ({ mkCodeGenState [] with
            namespaceMaps := [[("a", .placeholder 0 "a" [5] .int64)], []] },
        .error (.nameNotFound "missing"))
    ∧ ([[("a", .placeholder 0 "a" [5] .int64)], []] :
        List (List (String × Array))).length
        ≠ (mkCodeGenState []).namespaceMaps.length := by
  refine ⟨rfl, by decide⟩

/-- Claim C8: the first lowering of an IndexLambda caches a
`LoopyExpressionResult` wrapping the rewritten body and leaves the kernel
program exactly as the body rewrite left it: relative to the state after
the rewrite, no buffer argument, no iteration domain and no instruction is
added by the IndexLambda itself (any kernel growth happened inside the
rewrite, i.e. from lowering nodes the body references). -/
theorem index_lambda_no_kernel_growth (fuel idn : Nat) (body : ScalarExpression)
    (sh : ShapeType) (dt : DType) (bindings : List (String × Array))
    (st st2 st' : CodeGenState) (ctx2 : LoopyExpressionContext)
    (le : ScalarExpression) (r : GeneratedResult)
    (hcache : alookup st.results idn = none)
    (hbody : exprgenRec fuel body makeExpressionContext
        { st with namespaceMaps := bindings :: st.namespaceMaps } = (st2, ctx2, .ok le))
    (hrun : codegenRec (fuel + 1) (.indexLambda idn body sh dt bindings) st
        = (st', .ok r)) :
    r = .loopyExpressionResult le (.shape sh) (.dtype dt)
    ∧ st' = { st2 with
        namespaceMaps := st2.namespaceMaps.tail,
        results := (idn, r) :: st2.results }
    ∧ st'.kernel = st2.kernel := by
  simp only [codegenRec_succ, codegenFn, hcache, hbody] at hrun
  rw [Prod.mk.injEq] at hrun
  obtain ⟨hst, hr⟩ := hrun
  obtain rfl := Except.ok.inj hr
  exact ⟨rfl, hst.symm, by rw [← hst]⟩

theorem index_lambda_no_kernel_growth_witness :
    c8Res = .loopyExpressionResult (.const 5) (.shape [5]) (.dtype .int64)
    ∧ c8StFinal = { c8St2 with
        namespaceMaps := c8St2.namespaceMaps.tail,
        results := (1, c8Res) :: c8St2.results }
    ∧ c8StFinal.kernel = c8St2.kernel :=
  index_lambda_no_kernel_growth 1 1 (.const 5) [5] .int64 c8Bindings c8St0 c8St2
    c8StFinal makeExpressionContext (.const 5) c8Res rfl rfl rfl

/-- Claim C5: when an Output of shape `(d0,...,dn)` is lowered on first
visit (with the inner node lowering to `r1` leaving state `st1`), the
kernel gains exactly one iteration domain whose loop variables are the
`n+1` freshly generated, pairwise distinct inames with extents exactly the
output's shape, and exactly one assignment instruction targeting the
output buffer subscripted by exactly those inames in order and scoped to
exactly that set of inames. -/
theorem map_output_domain_and_instruction (fuel idn : Nat) (nm : String)
    (inner : Array) (st st1 st' : CodeGenState) (r1 r : GeneratedResult)
    (hcache : alookup st.results idn = none)
    (hinner : codegenRec fuel inner st = (st1, .ok r1))
    (hrun : codegenRec (fuel + 1) (.output idn nm inner) st = (st', .ok r)) :
    (genNameList st1.var_name_gen (output_dim_bases nm inner.shape.length)).1.length
        = inner.shape.length
    ∧ (genNameList st1.var_name_gen (output_dim_bases nm inner.shape.length)).1.Nodup
    ∧ (∀ x ∈ (genNameList st1.var_name_gen (output_dim_bases nm inner.shape.length)).1,
        x ∉ st1.var_name_gen)
    ∧ st'.kernel.domains = st1.kernel.domains
        ++ [{ inames := (genNameList st1.var_name_gen
                          (output_dim_bases nm inner.shape.length)).1,
              shape := inner.shape }]
    ∧ st'.kernel.instructions = st1.kernel.instructions
        ++ [{ id := (ungNext st1.insn_id_gen (nm ++ "_copy")).1,
              assignee := .subscript (.var nm)
                            ((genNameList st1.var_name_gen
                              (output_dim_bases nm inner.shape.length)).1.map
                              ScalarExpression.var),
              rhs := (r1.toLoopyExpression
                       ((genNameList st1.var_name_gen
                         (output_dim_bases nm inner.shape.length)).1.map
                         ScalarExpression.var)
                       makeExpressionContext).1,
              within_inames := (genNameList st1.var_name_gen
                                 (output_dim_bases nm inner.shape.length)).1,
              depends_on := [] }] := by
  have hsh : ¬ inner.shape = [] := by
    intro h
    simp [codegenRec_succ, codegenFn, hcache, h] at hrun
  simp only [codegenRec_succ, codegenFn, hcache, if_neg hsh, hinner,
    map_output_post, toLoopyExpression_ctx, makeExpressionContext,
    List.isEmpty_nil, Bool.and_self, if_true] at hrun
  rw [Prod.mk.injEq] at hrun
  obtain ⟨hst, hr⟩ := hrun
  subst hst
  refine ⟨genNameList_length _ _ |>.trans (by simp [output_dim_bases]),
    genNameList_nodup _ _, genNameList_fresh _ _, rfl, rfl⟩

theorem map_output_domain_and_instruction_witness :
    (codegenRec 2 (.output 1 "o" (.placeholder 0 "x" [4, 7] .int64))
        (mkCodeGenState [])).1.kernel.domains
      = [{ inames := ["o_dim0", "o_dim1"], shape := [4, 7] }]
    ∧ (codegenRec 2 (.output 1 "o" (.placeholder 0 "x" [4, 7] .int64))
        (mkCodeGenState [])).1.kernel.instructions
      = [{ id := "o_copy",
           assignee := .subscript (.var "o") [.var "o_dim0", .var "o_dim1"],
           rhs := .subscript (.var "x") [.var "o_dim0", .var "o_dim1"],
           within_inames := ["o_dim0", "o_dim1"],
           depends_on := [] }]
    ∧ (["o_dim0", "o_dim1"] : List String).Nodup := by
  have hinner : codegenRec 1 (.placeholder 0 "x" [4, 7] .int64) (mkCodeGenState [])
      = ((codegenRec 1 (.placeholder 0 "x" [4, 7] .int64) (mkCodeGenState [])).1,
        .ok (.arrayResult "x" (.dtype .int64) (.shape [4, 7]))) := rfl
  have hrun : codegenRec 2 (.output 1 "o" (.placeholder 0 "x" [4, 7] .int64))
      (mkCodeGenState [])
      = ((codegenRec 2 (.output 1 "o" (.placeholder 0 "x" [4, 7] .int64))
          (mkCodeGenState [])).1,
        .ok (.arrayResult "o" (.dtype .int64) (.shape [4, 7]))) := rfl
  have h := map_output_domain_and_instruction 1 1 "o"
    (.placeholder 0 "x" [4, 7] .int64) (mkCodeGenState [])
    (codegenRec 1 (.placeholder 0 "x" [4, 7] .int64) (mkCodeGenState [])).1
    (codegenRec 2 (.output 1 "o" (.placeholder 0 "x" [4, 7] .int64))
      (mkCodeGenState [])).1
    (.arrayResult "x" (.dtype .int64) (.shape [4, 7]))
    (.arrayResult "o" (.dtype .int64) (.shape [4, 7])) rfl hinner hrun
  exact ⟨h.2.2.2.1, h.2.2.2.2, h.2.1⟩

theorem exprgen_ctx_preserved (fuel : Nat) :
    ∀ e ctx st, (exprgenRec fuel e ctx st).2.1 = ctx := by
  induction fuel with
  | zero => intro e ctx st; rfl
  | succ f ih =>
    intro e ctx st
    rw [exprgenRec_succ]
    cases e with
    | const n => rfl
    | var nm =>
      simp only [exprgenFn]
      rcases hcl : chainLookup st.namespaceMaps nm with _ | node
      · simp [hcl]
      · rcases hcg : codegenRec f node st with ⟨st1, res⟩
        cases res with
        | error err => simp [hcl, hcg]
        | ok r => simp [hcl, hcg, toLoopyExpression_ctx]
    | subscript agg idx =>
      cases agg with
      | var nm =>
        simp only [exprgenFn]
        rcases hcl : chainLookup st.namespaceMaps nm with _ | node
        · simp [hcl]
        · rcases hcg : codegenRec f node st with ⟨st1, res⟩
          cases res with
          | error err => simp [hcl, hcg]
          | ok r => simp [hcl, hcg, toLoopyExpression_ctx]
      | const n => rfl
      | subscript a i => rfl
      | add a b => rfl
      | mul a b => rfl
    | add x y =>
      simp only [exprgenFn]
      rcases h1 : exprgenRec f x ctx st with ⟨st1, ctx1, res1⟩
      have e1 : ctx1 = ctx := by
        have := ih x ctx st
        rw [h1] at this
        exact this
      subst e1
      cases res1 with
      | error err => simp [h1]
      | ok x1 =>
        rcases h2 : exprgenRec f y ctx1 st1 with ⟨st2, ctx2, res2⟩
        have e2 : ctx2 = ctx1 := by
          have := ih y ctx1 st1
          rw [h2] at this
          exact this
        cases res2 with
        | error err => simp [h1, h2, e2]
        | ok y1 => simp [h1, h2, e2]
    | mul x y =>
      simp only [exprgenFn]
      rcases h1 : exprgenRec f x ctx st with ⟨st1, ctx1, res1⟩
      have e1 : ctx1 = ctx := by
        have := ih x ctx st
        rw [h1] at this
        exact this
      subst e1
      cases res1 with
      | error err => simp [h1]
      | ok x1 =>
        rcases h2 : exprgenRec f y ctx1 st1 with ⟨st2, ctx2, res2⟩
        have e2 : ctx2 = ctx1 := by
          have := ih y ctx1 st1
          rw [h2] at this
          exact this
        cases res2 with
        | error err => simp [h1, h2, e2]
        | ok y1 => simp [h1, h2, e2]

theorem kernel_instructions_invariant (fuel : Nat) :
    (∀ e st insn, insn ∈ (codegenRec fuel e st).1.kernel.instructions →
      insn ∈ st.kernel.instructions ∨ insn.depends_on = [])
    ∧ (∀ e ctx st insn, insn ∈ (exprgenRec fuel e ctx st).1.kernel.instructions →
      insn ∈ st.kernel.instructions ∨ insn.depends_on = []) := by
  induction fuel with
  | zero => exact ⟨fun e st insn h => Or.inl h, fun e ctx st insn h => Or.inl h⟩
  | succ f ih =>
    obtain ⟨ihc, ihe⟩ := ih
    constructor
    · intro e st insn hmem
      rw [codegenRec_succ] at hmem
      cases e with
      | placeholder idn nm sh dt =>
        rcases hl : alookup st.results idn with _ | r
        · simp only [codegenFn, map_placeholder, hl] at hmem
          exact Or.inl hmem
        · simp only [codegenFn, map_placeholder, hl] at hmem
          exact Or.inl hmem
      | output idn nm inner =>
        rcases hl : alookup st.results idn with _ | r
        · by_cases hsh : inner.shape = []
          · simp only [codegenFn, hl, hsh, if_pos] at hmem
            exact Or.inl hmem
          · rcases hcg : codegenRec f inner st with ⟨st1, res⟩
            cases res with
            | error err =>
              simp only [codegenFn, hl, if_neg hsh, hcg] at hmem
              exact ihc inner st insn (by rw [hcg]; exact hmem)
            | ok r1 =>
              simp only [codegenFn, hl, if_neg hsh, hcg, map_output_post,
                toLoopyExpression_ctx, makeExpressionContext, List.isEmpty_nil,
                Bool.and_self, if_true] at hmem
              rcases List.mem_append.mp hmem with h | h
              · exact ihc inner st insn (by rw [hcg]; exact h)
              · obtain rfl := List.mem_singleton.mp h
                exact Or.inr rfl
        · simp only [codegenFn, hl] at hmem
          exact Or.inl hmem
      | indexLambda idn body sh dt bindings =>
        rcases hl : alookup st.results idn with _ | r
        · rcases heg : exprgenRec f body makeExpressionContext
              { st with namespaceMaps := bindings :: st.namespaceMaps }
              with ⟨st2, ctx2, res⟩
          cases res with
          | error err =>
            simp only [codegenFn, hl, heg] at hmem
            exact ihe body makeExpressionContext
              { st with namespaceMaps := bindings :: st.namespaceMaps } insn
              (by rw [heg]; exact hmem)
          | ok le =>
            simp only [codegenFn, hl, heg] at hmem
            exact ihe body makeExpressionContext
              { st with namespaceMaps := bindings :: st.namespaceMaps } insn
              (by rw [heg]; exact hmem)
        · simp only [codegenFn, hl] at hmem
          exact Or.inl hmem
    · intro e ctx st insn hmem
      rw [exprgenRec_succ] at hmem
      cases e with
      | const n => exact Or.inl hmem
      | var nm =>
        rcases hcl : chainLookup st.namespaceMaps nm with _ | node
        · simp only [exprgenFn, hcl] at hmem
          exact Or.inl hmem
        · rcases hcg : codegenRec f node st with ⟨st1, res⟩
          cases res with
          | error err =>
            simp only [exprgenFn, hcl, hcg] at hmem
            exact ihc node st insn (by rw [hcg]; exact hmem)
          | ok r =>
            simp only [exprgenFn, hcl, hcg] at hmem
            exact ihc node st insn (by rw [hcg]; exact hmem)
      | subscript agg idx =>
        cases agg with
        | var nm =>
          rcases hcl : chainLookup st.namespaceMaps nm with _ | node
          · simp only [exprgenFn, hcl] at hmem
            exact Or.inl hmem
          · rcases hcg : codegenRec f node st with ⟨st1, res⟩
            cases res with
            | error err =>
              simp only [exprgenFn, hcl, hcg] at hmem
              exact ihc node st insn (by rw [hcg]; exact hmem)
            | ok r =>
              simp only [exprgenFn, hcl, hcg] at hmem
              exact ihc node st insn (by rw [hcg]; exact hmem)
        | const n => exact Or.inl hmem
        | subscript a i => exact Or.inl hmem
        | add a b => exact Or.inl hmem
        | mul a b => exact Or.inl hmem
      | add x y =>
        rcases h1 : exprgenRec f x ctx st with ⟨st1, ctx1, res1⟩
        cases res1 with
        | error err =>
          simp only [exprgenFn, h1] at hmem
          exact ihe x ctx st insn (by rw [h1]; exact hmem)
        | ok x1 =>
          rcases h2 : exprgenRec f y ctx1 st1 with ⟨st2, ctx2, res2⟩
          have step2 : insn ∈ st1.kernel.instructions ∨ insn.depends_on = [] := by
            cases res2 with
            | error err =>
              simp only [exprgenFn, h1, h2] at hmem
              exact ihe y ctx1 st1 insn (by rw [h2]; exact hmem)
            | ok y1 =>
              simp only [exprgenFn, h1, h2] at hmem
              exact ihe y ctx1 st1 insn (by rw [h2]; exact hmem)
          rcases step2 with hm | hd
          · exact ihe x ctx st insn (by rw [h1]; exact hm)
          · exact Or.inr hd
      | mul x y =>
        rcases h1 : exprgenRec f x ctx st with ⟨st1, ctx1, res1⟩
        cases res1 with
        | error err =>
          simp only [exprgenFn, h1] at hmem
          exact ihe x ctx st insn (by rw [h1]; exact hmem)
        | ok x1 =>
          rcases h2 : exprgenRec f y ctx1 st1 with ⟨st2, ctx2, res2⟩
          have step2 : insn ∈ st1.kernel.instructions ∨ insn.depends_on = [] := by
            cases res2 with
            | error err =>
              simp only [exprgenFn, h1, h2] at hmem
              exact ihe y ctx1 st1 insn (by rw [h2]; exact hmem)
            | ok y1 =>
              simp only [exprgenFn, h1, h2] at hmem
              exact ihe y ctx1 st1 insn (by rw [h2]; exact hmem)
          rcases step2 with hm | hd
          · exact ihe x ctx st insn (by rw [h1]; exact hm)
          · exact Or.inr hd

theorem lowerNamespaceItems_insns (fuel : Nat) (items : Namespace) :
    ∀ st insn, insn ∈ (lowerNamespaceItems fuel items st).1.kernel.instructions →
      insn ∈ st.kernel.instructions ∨ insn.depends_on = [] := by
  induction items with
  | nil => exact fun st insn h => Or.inl h
  | cons it rest ih =>
    intro st insn h
    obtain ⟨nm, v⟩ := it
    rcases hcg : codegenRec fuel v st with ⟨st1, res⟩
    cases res with
    | ok u =>
      simp only [lowerNamespaceItems, hcg] at h
      rcases ih st1 insn h with hm | hd
      · exact (kernel_instructions_invariant fuel).1 v st insn (by rw [hcg]; exact hm)
      · exact Or.inr hd
    | error err =>
      simp only [lowerNamespaceItems, hcg] at h
      exact (kernel_instructions_invariant fuel).1 v st insn (by rw [hcg]; exact h)

/-- Claim C10: the expression context's dependency set starts empty; the
rewriter returns the context exactly as supplied (it never adds a
dependency while resolving variable or subscript references); any
instruction a lowering step appends carries an empty dependency set
(map_output checks the context is still empty before emitting); hence
every assignment instruction of a kernel produced by a completed pass has
an empty dependency set. -/
theorem instruction_dependencies_empty :
    makeExpressionContext.depends_on = []
    ∧ (∀ fuel e ctx st, (exprgenRec fuel e ctx st).2.1 = ctx)
    ∧ (∀ fuel e st insn, insn ∈ (codegenRec fuel e st).1.kernel.instructions →
        insn ∈ st.kernel.instructions ∨ insn.depends_on = [])
    ∧ (∀ fuel ns insn,
        insn ∈ (generate_loopy_from_namespace fuel ns).1.kernel.instructions →
        insn.depends_on = []) := by
  refine ⟨rfl, fun fuel e ctx st => exprgen_ctx_preserved fuel e ctx st,
    fun fuel e st insn h => (kernel_instructions_invariant fuel).1 e st insn h, ?_⟩
  intro fuel ns insn h
  rcases lowerNamespaceItems_insns fuel ns (mkCodeGenState ns) insn h with hm | hd
  · simp [mkCodeGenState, emptyKernel] at hm
  · exact hd

theorem instruction_dependencies_empty_witness :
    (exprgenRec 1 (.const 3) makeExpressionContext (mkCodeGenState [])).2.1
      = makeExpressionContext
    ∧ ({ id := "o_copy",
         assignee := .subscript (.var "o") [.var "o_dim0"],
         rhs := .subscript (.var "x") [.var "o_dim0"],
         within_inames := ["o_dim0"],
         depends_on := [] } : Instruction).depends_on = [] :=
  ⟨instruction_dependencies_empty.2.1 1 (.const 3) makeExpressionContext
      (mkCodeGenState []),
    instruction_dependencies_empty.2.2.2 3
      [("x", .placeholder 0 "x" [2] .int64),
        ("o", .output 1 "o" (.placeholder 0 "x" [2] .int64))]
      { id := "o_copy",
        assignee := .subscript (.var "o") [.var "o_dim0"],
        rhs := .subscript (.var "x") [.var "o_dim0"],
        within_inames := ["o_dim0"],
        depends_on := [] }
      (List.mem_singleton_self _)⟩

theorem alookup_zip_get {α : Type} (keys : List String) (vals : List α) :
    ∀ (d : Nat), keys.Nodup → ∀ (hk : d < keys.length) (hv : d < vals.length),
    alookup (keys.zip vals) (keys.get ⟨d, hk⟩) = some (vals.get ⟨d, hv⟩) := by
  induction keys generalizing vals with
  | nil => intro d _ hk _; exact absurd hk (by simp)
  | cons k ks ih =>
    intro d hnd hk hv
    cases vals with
    | nil => exact absurd hv (by simp)
    | cons v vs =>
      cases d with
      | zero => simp [alookup]
      | succ d =>
        have hk2 : d < ks.length := by simpa using hk
        have hv2 : d < vs.length := by simpa using hv
        have hne : ¬ k = ks.get ⟨d, hk2⟩ := by
          intro h
          exact (List.nodup_cons.mp hnd).1 (h ▸ List.get_mem ks d hk2)
        simp only [List.zip_cons_cons, alookup, List.get_cons_succ]
        rw [if_neg hne]
        exact ih vs d (List.nodup_cons.mp hnd).2 hk2 hv2

theorem alookup_zip_not_mem {α : Type} (keys : List String) (vals : List α)
    (s : String) (hs : s ∉ keys) : alookup (keys.zip vals) s = none := by
  induction keys generalizing vals with
  | nil => simp [alookup]
  | cons k ks ih =>
    cases vals with
    | nil => simp [alookup]
    | cons v vs =>
      simp only [List.zip_cons_cons, alookup]
      rw [if_neg (by intro h; exact hs (h ▸ List.mem_cons_self k ks))]
      exact ih vs (fun h => hs (List.mem_cons_of_mem _ h))

/-- Claim C4: rendering a `LoopyExpressionResult` of `n` dimensions at an
index tuple `(i0,...,i(n-1))` yields the stored expression with the
reserved placeholder names substituted structurally: the rendering equals
`substitute` of the stored expression under the map pairing `"_d"` with
`i_d` in dimension order; under that map the placeholder for dimension `d`
goes to exactly `i_d`; and the substitution is purely structural (sums,
products, subscripts and constants are rebuilt from substituted children,
other variables are untouched), so the stored expression is not
re-evaluated or changed. -/
theorem loopyExpressionResult_rendering (e : ScalarExpression) (sh : ShapeType)
    (dt : DType) (indices : List ScalarExpression) (ctx : LoopyExpressionContext)
    (d : Nat) (x y a : ScalarExpression) (idx2 : List ScalarExpression) (n : Int)
    (s : String) (hd : d < sh.length) (hdi : d < indices.length)
    (hnd : (dimNames sh.length).Nodup) (hs : s ∉ dimNames sh.length) :
    ((GeneratedResult.loopyExpressionResult e (.shape sh) (.dtype dt)).toLoopyExpression
        indices ctx).1
      = substitute e ((dimNames sh.length).zip indices)
    ∧ substitute (.var (dimName d)) ((dimNames sh.length).zip indices)
      = indices.get ⟨d, hdi⟩
    ∧ substitute (.add x y) ((dimNames sh.length).zip indices)
      = .add (substitute x ((dimNames sh.length).zip indices))
          (substitute y ((dimNames sh.length).zip indices))
    ∧ substitute (.mul x y) ((dimNames sh.length).zip indices)
      = .mul (substitute x ((dimNames sh.length).zip indices))
          (substitute y ((dimNames sh.length).zip indices))
    ∧ substitute (.subscript a idx2) ((dimNames sh.length).zip indices)
      = .subscript (substitute a ((dimNames sh.length).zip indices))
          (substituteList idx2 ((dimNames sh.length).zip indices))
    ∧ substitute (.const n) ((dimNames sh.length).zip indices) = .const n
    ∧ substitute (.var s) ((dimNames sh.length).zip indices) = .var s := by
  have hlen : d < (dimNames sh.length).length := by simpa [dimNames] using hd
  have hget : (dimNames sh.length).get ⟨d, hlen⟩ = dimName d := by
    simp [dimNames]
  refine ⟨rfl, ?_, by simp [substitute], by simp [substitute], by simp [substitute],
    by simp [substitute], ?_⟩
  · rw [show substitute (.var (dimName d)) ((dimNames sh.length).zip indices)
        = (alookup ((dimNames sh.length).zip indices) (dimName d)).getD
            (.var (dimName d)) from by simp [substitute]]
    rw [← hget, alookup_zip_get _ _ d hnd hlen hdi]
    rfl
  · rw [show substitute (.var s) ((dimNames sh.length).zip indices)
        = (alookup ((dimNames sh.length).zip indices) s).getD (.var s) from by
      simp [substitute]]
    rw [alookup_zip_not_mem _ _ s hs]
    rfl

theorem loopyExpressionResult_rendering_witness :
    ((GeneratedResult.loopyExpressionResult (.add (.var "_0") (.var "_1"))
        (.shape [2, 3]) (.dtype .int64)).toLoopyExpression
        [.const 1, .const 2] makeExpressionContext).1
      = substitute (.add (.var "_0") (.var "_1"))
          ((dimNames ([2, 3] : ShapeType).length).zip [.const 1, .const 2])
    ∧ substitute (.var (dimName 1))
        ((dimNames ([2, 3] : ShapeType).length).zip [.const 1, .const 2])
      = ([ScalarExpression.const 1, .const 2].get ⟨1, by decide⟩)
    ∧ substitute (.add (.var "_0") (.const 7))
        ((dimNames ([2, 3] : ShapeType).length).zip [.const 1, .const 2])
      = .add (substitute (.var "_0")
          ((dimNames ([2, 3] : ShapeType).length).zip [.const 1, .const 2]))
          (substitute (.const 7)
            ((dimNames ([2, 3] : ShapeType).length).zip [.const 1, .const 2]))
    ∧ substitute (.mul (.var "_0") (.const 7))
        ((dimNames ([2, 3] : ShapeType).length).zip [.const 1, .const 2])
      = .mul (substitute (.var "_0")
          ((dimNames ([2, 3] : ShapeType).length).zip [.const 1, .const 2]))
          (substitute (.const 7)
            ((dimNames ([2, 3] : ShapeType).length).zip [.const 1, .const 2]))
    ∧ substitute (.subscript (.var "q") [.var "_0"])
        ((dimNames ([2, 3] : ShapeType).length).zip [.const 1, .const 2])
      = .subscript (substitute (.var "q")
          ((dimNames ([2, 3] : ShapeType).length).zip [.const 1, .const 2]))
          (substituteList [.var "_0"]
            ((dimNames ([2, 3] : ShapeType).length).zip [.const 1, .const 2]))
    ∧ substitute (.const 9)
        ((dimNames ([2, 3] : ShapeType).length).zip [.const 1, .const 2]) = .const 9
    ∧ substitute (.var "q")
        ((dimNames ([2, 3] : ShapeType).length).zip [.const 1, .const 2]) = .var "q" :=
  loopyExpressionResult_rendering (.add (.var "_0") (.var "_1")) [2, 3] .int64
    [.const 1, .const 2] makeExpressionContext 1 (.var "_0") (.const 7) (.var "q")
    [.var "_0"] 9 "q" (by decide) (by decide) (by decide) (by decide)

/-- Claim C9 (counterexample): passing a bare node is wrapped under the
default name "out", but when the node's namespace already binds the name
"out" (here: the node is a Placeholder named "out"), the promotion's
unique name generator renames the Output, so the produced program's single
output buffer is NOT named "out" — the claim's conclusion fails. -/
theorem single_node_default_name_collision :
    (generate_loopy_array 6 [("out", .placeholder 0 "out" [2] .int64)]
        (.placeholder 0 "out" [2] .int64) 1).2 = .ok ()
    ∧ ((generate_loopy_array 6 [("out", .placeholder 0 "out" [2] .int64)]
        (.placeholder 0 "out" [2] .int64) 1).1.kernel.args.filter
          (fun arg => arg.is_output_only)).map GlobalArg.name = ["out_"]
    ∧ ("out_" : String) ≠ "out" := by
  refine ⟨rfl, rfl, by decide⟩

/-- Claim C9 (amended): a single array node passed to the entry point is
wrapped as the one-entry mapping under the default name "out" before
promotion; provided "out" is not already bound in the node's namespace,
the promoted entry is an Output named "out", and lowering an Output on
first visit puts an output-only buffer argument carrying the Output's
name, shape and dtype into the kernel program — so the output buffer is
named "out". -/
theorem single_node_default_name (ns : Namespace) (node : Array)
    (fuel freshIdent : Nat) (hout : "out" ∉ ns.map Prod.fst) :
    generate_loopy_array fuel ns node freshIdent
      = generate_loopy_dict fuel ns [("out", node)] freshIdent
    ∧ promote_named_arrays_to_outputs ns [("out", node)] freshIdent
      = ns ++ [("out", .output freshIdent "out" node)]
    ∧ (∀ (fuel2 idn : Nat) (st st2 : CodeGenState) (nm : String) (inner : Array)
        (r : GeneratedResult),
        alookup st.results idn = none →
        codegenRec (fuel2 + 1) (.output idn nm inner) st = (st2, .ok r) →
        ({ name := nm, shape := inner.shape, dtype := inner.dtype,
           is_output_only := true } : GlobalArg) ∈ st2.kernel.args) := by
  refine ⟨rfl, ?_, ?_⟩
  · simp [promote_named_arrays_to_outputs, promoteLoop, ungNext, hout]
  · intro fuel2 idn st st2 nm inner r hcache hrun
    have hsh : ¬ inner.shape = [] := by
      intro h
      simp [codegenRec_succ, codegenFn, hcache, h] at hrun
    rcases hcg : codegenRec fuel2 inner st with ⟨st1, res⟩
    cases res with
    | error err =>
      simp [codegenRec_succ, codegenFn, hcache, if_neg hsh, hcg] at hrun
    | ok r1 =>
      simp only [codegenRec_succ, codegenFn, hcache, if_neg hsh, hcg,
        map_output_post, toLoopyExpression_ctx, makeExpressionContext,
        List.isEmpty_nil, Bool.and_self, if_true] at hrun
      rw [Prod.mk.injEq] at hrun
      obtain ⟨hst, hr⟩ := hrun
      subst hst
      exact List.mem_append_right _ (List.mem_singleton_self _)

theorem single_node_default_name_witness :
    generate_loopy_array 5 [("x", .placeholder 0 "x" [3] .int64)]
        (.placeholder 0 "x" [3] .int64) 1
      = generate_loopy_dict 5 [("x", .placeholder 0 "x" [3] .int64)]
        [("out", .placeholder 0 "x" [3] .int64)] 1
    ∧ promote_named_arrays_to_outputs [("x", .placeholder 0 "x" [3] .int64)]
        [("out", .placeholder 0 "x" [3] .int64)] 1
      = [("x", .placeholder 0 "x" [3] .int64)]
        ++ [("out", .output 1 "out" (.placeholder 0 "x" [3] .int64))]
    ∧ ({ name := "out", shape := [3], dtype := .int64,
         is_output_only := true } : GlobalArg)
        ∈ (codegenRec 2 (.output 1 "out" (.placeholder 0 "x" [3] .int64))
            (mkCodeGenState [])).1.kernel.args := by
  have h := single_node_default_name [("x", .placeholder 0 "x" [3] .int64)]
    (.placeholder 0 "x" [3] .int64) 5 1 (by decide)
  refine ⟨h.1, h.2.1, ?_⟩
  exact h.2.2 1 1 (mkCodeGenState [])
    (codegenRec 2 (.output 1 "out" (.placeholder 0 "x" [3] .int64))
      (mkCodeGenState [])).1
    "out" (.placeholder 0 "x" [3] .int64)
    (.arrayResult "out" (.dtype .int64) (.shape [3])) rfl rfl

end Pytato
